import Mathlib

/-!
# Verification of the JSONL-to-BigQuery ingestion service (`main.py`)

Shallow embedding of the per-file ingestion pipeline of `src/main.py`:
the record transformer (`load_json_to_dataframe`), the schema derivation
inside `create_or_append_table`, the folder lifecycle (`create_folders`),
the relocation move (`move_blob_to_folder`), the per-file driver
(`process_blob`, `process_blob_with_error_handling`) and the orchestrating
endpoint (`ingest_json_to_bigquery`).

Python values appearing on a JSONL line are modelled by `JVal`; a line of a
file is modelled by the outcome of `json.loads` on it (`Line`); Python
exceptions are modelled explicitly by `PyErr`.  The object store is a list
of named blobs; the warehouse load is an external collaborator and is
modelled by a boolean oracle (per blob name) saying whether the load call
raises.
-/

set_option autoImplicit false

namespace Ingest

/-- A parsed JSON value, as the Python object `json.loads` returns:
objects become `dict`s (insertion-ordered association lists with unique
keys), arrays become lists, and scalars become scalars. -/
inductive JVal where
  | null
  | bool (b : Bool)
  | num (n : Int)
  | str (s : String)
  | arr (elems : List JVal)
  | obj (fields : List (String × JVal))

/-- A Python `dict` with string keys: insertion-ordered key/value pairs. -/
abbrev Record := List (String × JVal)

/-- The Python exceptions the pipeline can raise.  `jsonDecodeError` is the
only one `load_json_to_dataframe` catches; `loadError` stands for any
exception raised by the BigQuery load call. -/
inductive PyErr where
  | jsonDecodeError
  | keyError (k : String)
  | typeError
  | indexError
  | loadError
deriving DecidableEq

/-- One line of the downloaded file text, abstracted by what `line.strip()`
and `json.loads(line)` do to it: whitespace-only, undecodable, or decoded
to a value. -/
inductive Line where
  | blank
  | malformed
  | parsed (v : JVal)

/-- Python `d[k]` for `k : str`: key lookup on a dict, `KeyError` when the
key is absent, `TypeError` on every non-dict value (string indices of a
list or string raise `TypeError`). -/
def pyGetItem (v : JVal) (k : String) : Except PyErr JVal :=
  match v with
  | .obj fields =>
    match fields.find? (fun kv => kv.1 == k) with
    | some kv => .ok kv.2
    | none => .error (.keyError k)
  | _ => .error .typeError

/-- Whether a character list occurs as a prefix of another. -/
def charsPre : List Char → List Char → Bool
  | [], _ => true
  | _ :: _, [] => false
  | a :: ps, b :: ss => a == b && charsPre ps ss

/-- Whether a character list occurs as a contiguous substring of another. -/
def charsSub (needle : List Char) : List Char → Bool
  | [] => charsPre needle []
  | c :: rest => charsPre needle (c :: rest) || charsSub needle rest

/-- Python `needle in v` for a string `needle`: key membership on a dict,
element membership on a list, substring test on a string, `TypeError`
on non-iterable values. -/
def pyInStr (needle : String) (v : JVal) : Except PyErr Bool :=
  match v with
  | .obj fields => .ok (fields.any (fun kv => kv.1 == needle))
  | .arr elems => .ok (elems.any (fun e =>
      match e with
      | .str s => s == needle
      | _ => false))
  | .str s => .ok (charsSub needle.toList s.toList)
  | _ => .error .typeError

/-- Python `d[k] = v` on an insertion-ordered dict: overwrite in place when
the key exists, append otherwise. -/
def dictInsert (d : Record) (k : String) (v : JVal) : Record :=
  if d.any (fun kv => kv.1 == k) then
    d.map (fun kv => if kv.1 == k then (k, v) else kv)
  else
    d ++ [(k, v)]

/-- The dict literal of `load_json_to_dataframe` (main.py lines 60–64):
`{'change_type': json_obj['source_metadata']['change_type'],
'source_timestamp': json_obj['source_timestamp'], **json_obj['payload']}`.
Lookups are evaluated left to right; `**` requires a mapping and merges the
payload last, so its keys overwrite the two extracted fields. -/
def buildRecord (j : JVal) : Except PyErr Record := do
  let sm ← pyGetItem j "source_metadata"
  let ct ← pyGetItem sm "change_type"
  let ts ← pyGetItem j "source_timestamp"
  let pl ← pyGetItem j "payload"
  match pl with
  | .obj pfields =>
    .ok (pfields.foldl (fun d kv => dictInsert d kv.1 kv.2)
          (dictInsert (dictInsert [] "change_type" ct) "source_timestamp" ts))
  | _ => .error .typeError

/-- What one iteration of the loop of `load_json_to_dataframe` does to one
line: skip blank lines, swallow `json.JSONDecodeError` (the only caught
exception), skip decoded lines without a `payload` key, and otherwise build
a record — any `KeyError`/`TypeError` arising there escapes the loop. -/
def lineResult (l : Line) : Except PyErr (Option Record) :=
  match l with
  | .blank => .ok none
  | .malformed => .ok none
  | .parsed v =>
    match pyInStr "payload" v with
    | .error e => .error e
    | .ok false => .ok none
    | .ok true =>
      match buildRecord v with
      | .error e => .error e
      | .ok r => .ok (some r)

/-- The record-accumulating loop of `load_json_to_dataframe`
(main.py lines 54–67). -/
def transformLines : List Line → List Record → Except PyErr (List Record)
  | [], acc => .ok acc
  | l :: rest, acc =>
    match lineResult l with
    | .error e => .error e
    | .ok none => transformLines rest acc
    | .ok (some r) => transformLines rest (acc ++ [r])

/-- The columns `pd.DataFrame(records)` derives from a list of dicts: the
union of all keys, in first-occurrence order. -/
def dfColumns (records : List Record) : List String :=
  records.foldl
    (fun cols r => r.foldl
      (fun cs kv => if cs.contains kv.1 then cs else cs ++ [kv.1]) cols)
    []

/-- A pandas DataFrame, reduced to what the pipeline uses: its column list
and its rows. -/
structure DataFrame where
  columns : List String
  rows : List Record
deriving Inhabited

/-- `load_json_to_dataframe` (main.py lines 49–75): transform the lines and
wrap the surviving records in a DataFrame (an empty one when no record
qualified). -/
def load_json_to_dataframe (content : List Line) : Except PyErr DataFrame :=
  match transformLines content [] with
  | .error e => .error e
  | .ok records => .ok ⟨dfColumns records, records⟩

/-- The BigQuery load-job schema built in `create_or_append_table`
(main.py line 82): one `STRING`-typed field per DataFrame column. -/
def loadJobSchema (df : DataFrame) : List (String × String) :=
  df.columns.map (fun c => (c, "STRING"))

/-- A blob of the bucket: a name (its full path) and the line-level view of
its text content. -/
structure Blob where
  name : String
  content : List Line

/-- The bucket as the object store holds it: the list of existing blobs. -/
abbrev Storage := List Blob

/-- `bucket.blob(nm).exists()`. -/
def blobExists (s : Storage) (nm : String) : Bool :=
  s.any (fun b => b.name == nm)

/-- `bucket.blob(nm).upload_from_string(c)`: overwrite the object when the
name exists, create it otherwise. -/
def uploadBlob (s : Storage) (nm : String) (c : List Line) : Storage :=
  if s.any (fun b => b.name == nm) then
    s.map (fun b => if b.name == nm then ⟨nm, c⟩ else b)
  else
    s ++ [⟨nm, c⟩]

/-- `blob.delete()`. -/
def deleteBlob (s : Storage) (nm : String) : Storage :=
  s.filter (fun b => !(b.name == nm))

/-- `move_blob_to_folder` (main.py lines 123–135): copy the blob's bytes to
`{folder_name}/{blob.name}`, then delete the original.  Storage errors are
swallowed at this layer; the store itself is modelled as reliable. -/
def move_blob_to_folder (s : Storage) (b : Blob) (folder : String) : Storage :=
  deleteBlob (uploadBlob s (folder ++ "/" ++ b.name) b.content) b.name

/-- `create_folders` (main.py lines 108–120): create the `Archive/` and
`Error/` zone markers, each only after a failed existence test.  Returns
the new storage and the list of marker names actually written. -/
def create_folders (s : Storage) : Storage × List String :=
  let step1 : Storage × List String :=
    if s.any (fun b => b.name == "Archive/") then (s, [])
    else (uploadBlob s "Archive/" [], ["Archive/"])
  if step1.1.any (fun b => b.name == "Error/") then step1
  else (uploadBlob step1.1 "Error/" [], step1.2 ++ ["Error/"])

/-- Python `s.startswith(p)`. -/
def pyStarts (s p : String) : Bool :=
  charsPre p.toList s.toList

/-- Python `s.endswith(p)`. -/
def pyEnds (s p : String) : Bool :=
  charsPre p.toList.reverse s.toList.reverse

/-- `os.path.basename` on a path without trailing separator handling:
everything after the last `/`. -/
def pyBasename (cs : List Char) : List Char :=
  (cs.reverse.takeWhile (fun c => !(c == '/'))).reverse

/-- Walk a reversed character list up to and through the first `.`;
`none` when there is no dot. -/
def dropExtRev : List Char → Option (List Char)
  | [] => none
  | c :: rest => if c == '.' then some rest else dropExtRev rest

/-- The root part of `os.path.splitext` on a separator-free name: cut at
the last dot, except when every character before that dot is itself a dot
(leading dots belong to the root, so `.bashrc` has no extension). -/
def splitextRoot (cs : List Char) : List Char :=
  match dropExtRev cs.reverse with
  | none => cs
  | some rootRev => if rootRev.any (fun c => !(c == '.')) then rootRev.reverse else cs

/-- Python `str.rsplit(sep)` with no maxsplit (same pieces as `split`):
split at every separator, keeping empty pieces; always non-empty. -/
def pySplitChar (cs : List Char) (sep : Char) : List (List Char) :=
  match cs with
  | [] => [[]]
  | c :: rest =>
    let groups := pySplitChar rest sep
    if c == sep then [] :: groups
    else
      match groups with
      | g :: gs => (c :: g) :: gs
      | [] => [[c]]

/-- `os.path.splitext(os.path.basename(blob.name))[0].rsplit('_')`
(main.py line 186). -/
def tableParts (name : String) : List (List Char) :=
  pySplitChar (splitextRoot (pyBasename name.toList)) '_'

/-- `parts[1]` (main.py line 187): the second underscore-delimited segment
of the extension-free base name; `none` models the `IndexError` raised when
fewer than two segments exist. -/
def tableNameOf (name : String) : Option String :=
  (tableParts name).get? 1 |>.map (fun cs => String.mk cs)

/-- `process_blob` (main.py lines 92–105): a whitespace-only download is
moved to `Error` and the function returns normally; otherwise the content
is transformed and handed to the BigQuery load, whose outcome the external
oracle `loadFails` decides (per blob name).  Returns the new storage, or
the uncaught exception (which never mutated storage first). -/
def process_blob (loadFails : String → Bool) (s : Storage) (b : Blob) :
    Storage × Option PyErr :=
  if b.content.all (fun l => match l with | .blank => true | _ => false) then
    (move_blob_to_folder s b "Error", none)
  else
    match load_json_to_dataframe b.content with
    | .error e => (s, some e)
    | .ok _ => if loadFails b.name then (s, some .loadError) else (s, none)

/-- `process_blob_with_error_handling` (main.py lines 138–153): on normal
return, archive the blob when it still exists; on an exception, move the
blob to `Error` and re-raise (the bare `raise` on line 153). -/
def process_blob_with_error_handling (loadFails : String → Bool) (s : Storage)
    (b : Blob) : Storage × Option PyErr :=
  match process_blob loadFails s b with
  | (s', none) =>
    if blobExists s' b.name then (move_blob_to_folder s' b "Archive", none)
    else (s', none)
  | (s', some e) => (move_blob_to_folder s' b "Error", some e)

/-- The `for blob in bucket.list_blobs()` loop of `ingest_json_to_bigquery`
(main.py lines 175–191): skip blobs under the outcome zones, route
non-`.jsonl` blobs to `Error` and continue, and otherwise derive the table
name (an `IndexError` there escapes the loop) and process the blob (a
re-raised exception escapes the loop). -/
def ingestLoop (loadFails : String → Bool) (s : Storage) :
    List Blob → Storage × Option PyErr
  | [] => (s, none)
  | b :: rest =>
    if pyStarts b.name "Error/" || pyStarts b.name "Archive/" then
      ingestLoop loadFails s rest
    else if !(pyEnds b.name ".jsonl") then
      ingestLoop loadFails (move_blob_to_folder s b "Error") rest
    else
      match tableNameOf b.name with
      | none => (s, some .indexError)
      | some _ =>
        match process_blob_with_error_handling loadFails s b with
        | (s', none) => ingestLoop loadFails s' rest
        | (s', some e) => (s', some e)

/-- Key lookup on an insertion-ordered dict (the value `d[k]` would return,
as an `Option`). -/
def lookupRec (r : Record) (k : String) : Option JVal :=
  (r.find? (fun kv => kv.1 == k)).map (fun kv => kv.2)

/-- The value the LAST occurrence of a key in a key/value list carries —
what the key ends up bound to after inserting the pairs in order. -/
def lastLookup : List (String × JVal) → String → Option JVal
  | [], _ => none
  | kv :: rest, k =>
    match lastLookup rest k with
    | some v => some v
    | none => if kv.1 == k then some kv.2 else none

/-- Python `k in d` for a dict. -/
def hasKey (fields : Record) (k : String) : Bool :=
  fields.any (fun kv => kv.1 == k)

/-- A line the transformer loop passes over without producing a record and
without raising: whitespace-only, undecodable (the caught
`json.JSONDecodeError`), or a decoded object without a `payload` key. -/
def skippable : Line → Bool
  | .blank => true
  | .malformed => true
  | .parsed (.obj fields) => !hasKey fields "payload"
  | .parsed _ => false

/-- A line shaped like the documented record format: a JSON object with a
`payload` object, `source_metadata.change_type`, and `source_timestamp`. -/
def wellFormed : Line → Bool
  | .parsed (.obj fields) =>
    hasKey fields "payload" &&
    (match fields.find? (fun kv => kv.1 == "source_metadata") with
     | some kv =>
       match kv.2 with
       | .obj sfields => hasKey sfields "change_type"
       | _ => false
     | none => false) &&
    hasKey fields "source_timestamp" &&
    (match fields.find? (fun kv => kv.1 == "payload") with
     | some kv =>
       match kv.2 with
       | .obj _ => true
       | _ => false
     | none => false)
  | _ => false

/-- The record a line contributes, when its processing neither raises nor
skips. -/
def recOf (l : Line) : Option Record :=
  match lineResult l with
  | .ok (some r) => some r
  | _ => none

/-- A well-formed JSONL line used as concrete test data. -/
def goodLine1 : Line :=
  .parsed (.obj [
    ("source_metadata", .obj [("change_type", .str "INSERT")]),
    ("source_timestamp", .str "t1"),
    ("payload", .obj [("a", .num 1), ("b", .num 2)])])

/-- A decoded line carrying `payload` whose `source_metadata` object lacks
`change_type`. -/
def lineNoCT : Line :=
  .parsed (.obj [
    ("source_metadata", .obj []),
    ("source_timestamp", .str "t0"),
    ("payload", .obj [("a", .num 1)])])

/-- A decoded line carrying `payload` but no `source_metadata` at all. -/
def lineNoSM : Line :=
  .parsed (.obj [("payload", .obj [("a", .num 1)])])

/-- Concrete working-zone blob `A` with one well-formed line. -/
def blobA : Blob := ⟨"evt_orders.jsonl", [goodLine1]⟩

/-- Concrete working-zone blob `B` with one well-formed line; test runs
inject a load failure on its name. -/
def blobB : Blob := ⟨"evt_items.jsonl", [goodLine1]⟩

/-- Concrete working-zone blob `C` with one well-formed line. -/
def blobC : Blob := ⟨"evt_users.jsonl", [goodLine1]⟩

/-- The load oracle that injects a BigQuery load failure on blob `B`. -/
def failB : String → Bool := fun n => n == "evt_items.jsonl"

/-- A decoded line that is a JSON object without a `payload` key. -/
def lineNoPayload : Line := .parsed (.obj [("x", .num 0)])

/-- Concrete blob whose middle line lacks `source_metadata.change_type`. -/
def blobBad : Blob := ⟨"evt_bad.jsonl", [goodLine1, lineNoCT, goodLine1]⟩

/-- Concrete blob with content that decodes to zero qualifying records. -/
def blobEmptyRec : Blob := ⟨"evt_none.jsonl", [.malformed]⟩

/-- Concrete `.jsonl` blob whose base name holds no underscore. -/
def blobNoUnderscore : Blob := ⟨"orders.jsonl", [goodLine1]⟩

/-- Concrete blob already under the `Archive/` zone prefix. -/
def zoneBlob : Blob := ⟨"Archive/old.jsonl", []⟩

/-- Concrete blob without the `.jsonl` extension. -/
def txtBlob : Blob := ⟨"notes.txt", []⟩

/-- Line fields whose payload overrides the extracted `change_type`. -/
def fieldsOvr : List (String × JVal) :=
  [("source_metadata", .obj [("change_type", .str "INSERT")]),
   ("source_timestamp", .str "t1"),
   ("payload", .obj [("change_type", .str "OVR"), ("a", .num 1)])]

/-- The record the transformer builds from `fieldsOvr`. -/
def recOvr : Record :=
  [("change_type", .str "OVR"), ("source_timestamp", .str "t1"), ("a", .num 1)]

/-- The record the transformer builds from `goodLine1`. -/
def recG : Record :=
  [("change_type", .str "INSERT"), ("source_timestamp", .str "t1"),
   ("a", .num 1), ("b", .num 2)]

/-- The DataFrame `load_json_to_dataframe` yields on `[goodLine1]`. -/
def dfG : DataFrame :=
  ⟨["change_type", "source_timestamp", "a", "b"], [recG]⟩

/-- The HTTP response of the endpoint: the success message, or the
`jsonify({'error': ...})` of the outer `except`. -/
inductive Response where
  | success
  | failure (e : PyErr)
deriving DecidableEq

/-- `ingest_json_to_bigquery` (main.py lines 156–198): create the zone
markers, list the blobs once, run the loop, and answer success — or, when
an exception escaped the loop, the error response of the outer `except`. -/
def ingest_json_to_bigquery (loadFails : String → Bool) (bucket : Storage) :
    Storage × Response :=
  let s0 := (create_folders bucket).1
  match ingestLoop loadFails s0 s0 with
  | (s, none) => (s, .success)
  | (s, some e) => (s, .failure e)

/-! ## General lemmas about the record transformer -/

/-- A prefix of lines that transforms cleanly just extends the accumulator;
the fate of the whole file is decided by the remaining lines. -/
theorem transformLines_append (xs ys : List Line) (acc rs : List Record)
    (h : transformLines xs acc = .ok rs) :
    transformLines (xs ++ ys) acc = transformLines ys rs := by
  induction xs generalizing acc with
  | nil =>
    simp only [transformLines] at h
    cases h
    simp
  | cons l rest ih =>
    simp only [transformLines] at h ⊢
    cases hl : lineResult l with
    | error e => simp [hl] at h
    | ok o =>
      cases o with
      | none => simp only [hl] at h ⊢; exact ih _ h
      | some r => simp only [hl] at h ⊢; exact ih _ h

/-- A key the `any` test finds has a `find?` witness. -/
theorem hasKey_find? (fields : Record) (k : String) (h : hasKey fields k = true) :
    ∃ kv, fields.find? (fun kv => kv.1 == k) = some kv := by
  rw [hasKey, List.any_eq_true] at h
  obtain ⟨kv, hmem, hk⟩ := h
  have : (fields.find? (fun kv => kv.1 == k)).isSome := by
    rw [List.find?_isSome]
    exact ⟨kv, hmem, hk⟩
  exact Option.isSome_iff_exists.mp this

/-- A skippable line makes the loop body continue without a record. -/
theorem lineResult_of_skippable (l : Line) (h : skippable l = true) :
    lineResult l = .ok none := by
  cases l with
  | blank => rfl
  | malformed => rfl
  | parsed v =>
    cases v with
    | obj fields =>
      simp only [skippable, Bool.not_eq_true'] at h
      rw [hasKey] at h
      simp [lineResult, pyInStr, h]
    | null => simp [skippable] at h
    | bool b => simp [skippable] at h
    | num n => simp [skippable] at h
    | str s => simp [skippable] at h
    | arr elems => simp [skippable] at h

/-- Evaluation of the dict literal of the transformer when each lookup
succeeds with a payload object. -/
theorem buildRecord_eq (fields sfields pfields : List (String × JVal))
    (ksm kct kts kpl : String) (ct ts : JVal)
    (hfsm : fields.find? (fun kv => kv.1 == "source_metadata") = some (ksm, .obj sfields))
    (hct : sfields.find? (fun kv => kv.1 == "change_type") = some (kct, ct))
    (hfts : fields.find? (fun kv => kv.1 == "source_timestamp") = some (kts, ts))
    (hfpl : fields.find? (fun kv => kv.1 == "payload") = some (kpl, .obj pfields)) :
    buildRecord (.obj fields) =
      .ok (pfields.foldl (fun d kv => dictInsert d kv.1 kv.2)
            (dictInsert (dictInsert [] "change_type" ct) "source_timestamp" ts)) := by
  simp [buildRecord, pyGetItem, hfsm, hct, hfts, hfpl, bind, Except.bind]

/-- A well-formed line makes the loop body produce a record. -/
theorem lineResult_of_wellFormed (l : Line) (h : wellFormed l = true) :
    ∃ r, lineResult l = .ok (some r) := by
  cases l with
  | blank => simp [wellFormed] at h
  | malformed => simp [wellFormed] at h
  | parsed v =>
    cases v with
    | obj fields =>
      simp only [wellFormed, Bool.and_eq_true] at h
      obtain ⟨⟨⟨hpay, hsm⟩, hts⟩, hpl⟩ := h
      cases hfsm : fields.find? (fun kv => kv.1 == "source_metadata") with
      | none => rw [hfsm] at hsm; simp at hsm
      | some kvsm =>
        obtain ⟨ksm, vsm⟩ := kvsm
        rw [hfsm] at hsm
        cases vsm with
        | obj sfields =>
          simp only at hsm
          obtain ⟨⟨kct, ct⟩, hct⟩ := hasKey_find? sfields "change_type" hsm
          obtain ⟨⟨kts, ts⟩, hfts⟩ := hasKey_find? fields "source_timestamp" hts
          cases hfpl : fields.find? (fun kv => kv.1 == "payload") with
          | none => rw [hfpl] at hpl; simp at hpl
          | some kvpl =>
            obtain ⟨kpl, vpl⟩ := kvpl
            rw [hfpl] at hpl
            cases vpl with
            | obj pfields =>
              refine ⟨pfields.foldl (fun d kv => dictInsert d kv.1 kv.2)
                (dictInsert (dictInsert [] "change_type" ct) "source_timestamp" ts), ?_⟩
              have hb := buildRecord_eq fields sfields pfields ksm kct kts kpl ct ts
                hfsm hct hfts hfpl
              rw [hasKey] at hpay
              simp only [lineResult, pyInStr, hpay, hb]
            | null => simp at hpl
            | bool b => simp at hpl
            | num n => simp at hpl
            | str s => simp at hpl
            | arr elems => simp at hpl
        | null => simp at hsm
        | bool b => simp at hsm
        | num n => simp at hsm
        | str s => simp at hsm
        | arr elems => simp at hsm
    | null => simp [wellFormed] at h
    | bool b => simp [wellFormed] at h
    | num n => simp [wellFormed] at h
    | str s => simp [wellFormed] at h
    | arr elems => simp [wellFormed] at h

/-- A line cannot be both skippable and well-formed. -/
theorem not_wellFormed_of_skippable (l : Line) (h : skippable l = true) :
    wellFormed l = false := by
  cases l with
  | blank => rfl
  | malformed => rfl
  | parsed v =>
    cases v with
    | obj fields =>
      simp only [skippable, Bool.not_eq_true'] at h
      simp [wellFormed, h]
    | null => rfl
    | bool b => rfl
    | num n => rfl
    | str s => rfl
    | arr elems => rfl

/-- The record a skippable line contributes: none. -/
theorem recOf_of_skippable (l : Line) (h : skippable l = true) : recOf l = none := by
  simp [recOf, lineResult_of_skippable l h]

/-- The transform of a file whose lines are each skippable or well-formed:
no exception, and the surviving records extend the accumulator in source
line order. -/
theorem transformLines_clean (content : List Line) (acc : List Record)
    (h : ∀ l, l ∈ content → skippable l = true ∨ wellFormed l = true) :
    transformLines content acc = .ok (acc ++ content.filterMap recOf) := by
  induction content generalizing acc with
  | nil => simp [transformLines]
  | cons l rest ih =>
    have hrest : ∀ l', l' ∈ rest → skippable l' = true ∨ wellFormed l' = true :=
      fun l' hm => h l' (List.mem_cons_of_mem l hm)
    cases h l (List.mem_cons_self l rest) with
    | inl hs =>
      have he := lineResult_of_skippable l hs
      simp only [transformLines, he, List.filterMap_cons, recOf_of_skippable l hs]
      exact ih acc hrest
    | inr hw =>
      obtain ⟨r, he⟩ := lineResult_of_wellFormed l hw
      have hro : recOf l = some r := by simp [recOf, he]
      simp only [transformLines, he, List.filterMap_cons, hro]
      rw [ih (acc ++ [r]) hrest]
      simp

/-- Under the same shape condition, the number of surviving records is the
number of well-formed lines. -/
theorem filterMap_recOf_length (content : List Line)
    (h : ∀ l, l ∈ content → skippable l = true ∨ wellFormed l = true) :
    (content.filterMap recOf).length = content.countP (fun l => wellFormed l) := by
  induction content with
  | nil => simp
  | cons l rest ih =>
    have hrest : ∀ l', l' ∈ rest → skippable l' = true ∨ wellFormed l' = true :=
      fun l' hm => h l' (List.mem_cons_of_mem l hm)
    rw [List.filterMap_cons, List.countP_cons]
    cases h l (List.mem_cons_self l rest) with
    | inl hs =>
      rw [recOf_of_skippable l hs, not_wellFormed_of_skippable l hs]
      simpa using ih hrest
    | inr hw =>
      obtain ⟨r, he⟩ := lineResult_of_wellFormed l hw
      have hro : recOf l = some r := by simp [recOf, he]
      rw [hro, hw]
      simpa using ih hrest

/-! ## Lemmas about dict insertion (payload merge order) -/

/-- Overwriting the binding of a different key leaves a key's lookup
unchanged. -/
theorem lookupRec_overwrite_ne (d : Record) (k k' : String) (v : JVal)
    (hne : ¬(k = k')) :
    lookupRec (d.map (fun kv => if kv.1 == k' then (k', v) else kv)) k =
      lookupRec d k := by
  induction d with
  | nil => rfl
  | cons kv rest ih =>
    simp only [List.map_cons]
    by_cases h1 : kv.1 = k'
    · have hb : (kv.1 == k') = true := beq_iff_eq.mpr h1
      have hk1 : (kv.1 == k) = false :=
        beq_eq_false_iff_ne.mpr (fun hc => hne (hc.symm.trans h1))
      have hk2 : (k' == k) = false := beq_eq_false_iff_ne.mpr (fun hc => hne hc.symm)
      rw [show (if (kv.1 == k') = true then (k', v) else kv) = (k', v) from if_pos hb]
      simp only [lookupRec] at ih
      simp only [lookupRec, List.find?_cons, hk1, hk2]
      exact ih
    · have hb : (kv.1 == k') = false := beq_eq_false_iff_ne.mpr h1
      rw [show (if (kv.1 == k') = true then (k', v) else kv) = kv from
        if_neg (by simp [hb])]
      by_cases h2 : kv.1 = k
      · have hk1 : (kv.1 == k) = true := beq_iff_eq.mpr h2
        simp only [lookupRec, List.find?_cons, hk1]
      · have hk1 : (kv.1 == k) = false := beq_eq_false_iff_ne.mpr h2
        simp only [lookupRec] at ih
        simp only [lookupRec, List.find?_cons, hk1]
        exact ih

/-- Overwriting the binding of a present key makes its lookup the new
value. -/
theorem lookupRec_overwrite_eq (d : Record) (k' : String) (v : JVal)
    (h : d.any (fun kv => kv.1 == k') = true) :
    lookupRec (d.map (fun kv => if kv.1 == k' then (k', v) else kv)) k' =
      some v := by
  induction d with
  | nil => simp at h
  | cons kv rest ih =>
    simp only [List.map_cons]
    by_cases h1 : kv.1 = k'
    · have hb : (kv.1 == k') = true := beq_iff_eq.mpr h1
      rw [show (if (kv.1 == k') = true then (k', v) else kv) = (k', v) from if_pos hb]
      simp only [lookupRec, List.find?_cons, beq_self_eq_true]
      rfl
    · have hb : (kv.1 == k') = false := beq_eq_false_iff_ne.mpr h1
      have h' : rest.any (fun kv => kv.1 == k') = true := by
        simpa [List.any_cons, hb] using h
      rw [show (if (kv.1 == k') = true then (k', v) else kv) = kv from
        if_neg (by simp [hb])]
      have ih' := ih h'
      simp only [lookupRec] at ih'
      simp only [lookupRec, List.find?_cons, hb]
      exact ih'

/-- Lookup after a Python dict insertion `d[k'] = v`. -/
theorem lookupRec_dictInsert (d : Record) (k k' : String) (v : JVal) :
    lookupRec (dictInsert d k' v) k = if k = k' then some v else lookupRec d k := by
  rw [dictInsert]
  by_cases hany : d.any (fun kv => kv.1 == k') = true
  · rw [if_pos hany]
    by_cases hk : k = k'
    · subst hk
      rw [if_pos rfl]
      exact lookupRec_overwrite_eq d k v hany
    · rw [if_neg hk]
      exact lookupRec_overwrite_ne d k k' v hk
  · rw [if_neg hany]
    have hfalse : d.any (fun kv => kv.1 == k') = false := by
      revert hany
      cases d.any (fun kv => kv.1 == k') <;> simp
    have hall := List.any_eq_false.mp hfalse
    by_cases hk : k = k'
    · subst hk
      have hnone : d.find? (fun kv => kv.1 == k) = none :=
        List.find?_eq_none.mpr (fun kv hm => by simpa using hall kv hm)
      simp [lookupRec, List.find?_append, hnone, List.find?_cons]
    · have hk2 : (k' == k) = false := beq_eq_false_iff_ne.mpr (fun hc => hk hc.symm)
      simp [lookupRec, List.find?_append, List.find?_cons, hk2, hk]

/-- Lookup after folding a key/value list into a dict: the last occurrence
in the list wins, and absent keys fall back to the initial dict. -/
theorem lookupRec_foldInsert (ps : List (String × JVal)) (d : Record) (k : String) :
    lookupRec (ps.foldl (fun d kv => dictInsert d kv.1 kv.2) d) k =
      match lastLookup ps k with
      | some v => some v
      | none => lookupRec d k := by
  induction ps generalizing d with
  | nil => simp [lastLookup]
  | cons kv rest ih =>
    simp only [List.foldl_cons, lastLookup]
    rw [ih]
    cases h : lastLookup rest k with
    | some v => simp
    | none =>
      simp only
      rw [lookupRec_dictInsert]
      by_cases hk : k = kv.1
      · have hb : (kv.1 == k) = true := beq_iff_eq.mpr hk.symm
        simp [hk, hb]
      · have hb : (kv.1 == k) = false := beq_eq_false_iff_ne.mpr (fun hc => hk hc.symm)
        simp [hk, hb]

/-! ## Lemmas about filename parsing -/

/-- `takeWhile` keeps a list all of whose elements pass the test. -/
theorem takeWhile_eq_self_of_all {α : Type} (p : α → Bool) (l : List α)
    (h : ∀ c, c ∈ l → p c = true) : l.takeWhile p = l := by
  induction l with
  | nil => rfl
  | cons c rest ih =>
    have h1 := h c (List.mem_cons_self c rest)
    have h2 := ih (fun c' hm => h c' (List.mem_cons_of_mem c hm))
    simp [List.takeWhile_cons, h1, h2]

/-- A path without separators is its own base name. -/
theorem pyBasename_of_no_slash (cs : List Char) (h : '/' ∉ cs) :
    pyBasename cs = cs := by
  rw [pyBasename, takeWhile_eq_self_of_all _ _ ?_, List.reverse_reverse]
  intro c hm
  have : c ∈ cs := List.mem_reverse.mp hm
  simp only [Bool.not_eq_true', beq_eq_false_iff_ne]
  exact fun hc => h (hc ▸ this)

/-- Walking a reversed name over a dot-free block lands on the next dot. -/
theorem dropExtRev_append (xs rest : List Char) (h : '.' ∉ xs) :
    dropExtRev (xs ++ '.' :: rest) = some rest := by
  induction xs with
  | nil => simp [dropExtRev]
  | cons c xs' ih =>
    have hc : ¬(c = '.') := fun hc => h (hc ▸ List.mem_cons_self c xs')
    have hcb : (c == '.') = false := beq_eq_false_iff_ne.mpr hc
    rw [List.cons_append, dropExtRev, hcb]
    simp only [Bool.false_eq_true, if_false]
    exact ih (fun hm => h (List.mem_cons_of_mem c hm))

/-- Splitting off the `.jsonl` extension recovers the root, whenever the
root holds at least one non-dot character and no dot after it. -/
theorem splitextRoot_jsonl (root : List Char)
    (h : root.any (fun c => !(c == '.')) = true) :
    splitextRoot (root ++ ".jsonl".toList) = root := by
  have hext : ('.' : Char) ∉ ['l', 'n', 'o', 's', 'j'] := by decide
  have hrev : (root ++ ".jsonl".toList).reverse
      = ['l', 'n', 'o', 's', 'j'] ++ '.' :: root.reverse := by
    rw [List.reverse_append]
    rfl
  rw [splitextRoot, hrev, dropExtRev_append _ _ hext]
  have hany : root.reverse.any (fun c => !(c == '.')) = true := by
    rw [List.any_eq_true] at h ⊢
    obtain ⟨c, hm, hc⟩ := h
    exact ⟨c, List.mem_reverse.mpr hm, hc⟩
  simp [hany]

/-- `rsplit('_')` on an underscore-free string is one segment. -/
theorem pySplitChar_of_no_sep (cs : List Char) (sep : Char) (h : sep ∉ cs) :
    pySplitChar cs sep = [cs] := by
  induction cs with
  | nil => rfl
  | cons c rest ih =>
    have hc : ¬(c = sep) := fun hc => h (hc ▸ List.mem_cons_self c rest)
    have hcb : (c == sep) = false := beq_eq_false_iff_ne.mpr hc
    rw [pySplitChar]
    simp only [hcb, Bool.false_eq_true, if_false]
    rw [ih (fun hm => h (List.mem_cons_of_mem c hm))]

/-- `rsplit('_')` peels a separator-free block before a separator off as
the first segment. -/
theorem pySplitChar_append (p rest : List Char) (sep : Char) (h : sep ∉ p) :
    pySplitChar (p ++ sep :: rest) sep = p :: pySplitChar rest sep := by
  induction p with
  | nil => simp [pySplitChar]
  | cons c p' ih =>
    have hc : ¬(c = sep) := fun hc => h (hc ▸ List.mem_cons_self c p')
    have hcb : (c == sep) = false := beq_eq_false_iff_ne.mpr hc
    rw [List.cons_append, pySplitChar]
    simp only [hcb, Bool.false_eq_true, if_false]
    rw [ih (fun hm => h (List.mem_cons_of_mem c hm))]

/-- A `.jsonl` name whose extension-free base name has no underscore makes
`parts[1]` raise `IndexError`. -/
theorem tableNameOf_eq_none (nm : String)
    (h : '_' ∉ splitextRoot (pyBasename nm.toList)) :
    tableNameOf nm = none := by
  rw [tableNameOf, tableParts, pySplitChar_of_no_sep _ _ h]
  rfl

/-! ## Lemmas about DataFrame column derivation -/

/-- Membership in the key accumulation of one record. -/
theorem mem_addKeys (r : Record) (acc : List String) (c : String) :
    (c ∈ r.foldl (fun cs kv => if cs.contains kv.1 then cs else cs ++ [kv.1]) acc) ↔
      c ∈ acc ∨ ∃ kv, kv ∈ r ∧ kv.1 = c := by
  induction r generalizing acc with
  | nil => simp
  | cons kv rest ih =>
    simp only [List.foldl_cons]
    by_cases h : acc.contains kv.1
    · rw [if_pos h, ih]
      constructor
      · rintro (hc | ⟨kv', hm, hk⟩)
        · exact Or.inl hc
        · exact Or.inr ⟨kv', List.mem_cons_of_mem kv hm, hk⟩
      · rintro (hc | ⟨kv', hm, hk⟩)
        · exact Or.inl hc
        · rcases List.mem_cons.mp hm with h1 | h1
          · subst h1
            exact Or.inl (hk ▸ List.elem_iff.mp h)
          · exact Or.inr ⟨kv', h1, hk⟩
    · rw [if_neg h, ih]
      constructor
      · rintro (hc | ⟨kv', hm, hk⟩)
        · rcases List.mem_append.mp hc with h1 | h1
          · exact Or.inl h1
          · have : c = kv.1 := by simpa using h1
            exact Or.inr ⟨kv, List.mem_cons_self kv rest, this.symm⟩
        · exact Or.inr ⟨kv', List.mem_cons_of_mem kv hm, hk⟩
      · rintro (hc | ⟨kv', hm, hk⟩)
        · exact Or.inl (List.mem_append.mpr (Or.inl hc))
        · rcases List.mem_cons.mp hm with h1 | h1
          · subst h1
            exact Or.inl (List.mem_append.mpr (Or.inr (by simp [hk])))
          · exact Or.inr ⟨kv', h1, hk⟩

/-- The derived column list holds exactly the union of the records' field
names. -/
theorem mem_dfColumns (records : List Record) (c : String) :
    c ∈ dfColumns records ↔ ∃ r, r ∈ records ∧ ∃ kv, kv ∈ r ∧ kv.1 = c := by
  suffices h : ∀ acc, (c ∈ records.foldl
      (fun cols r => r.foldl
        (fun cs kv => if cs.contains kv.1 then cs else cs ++ [kv.1]) cols) acc) ↔
      c ∈ acc ∨ ∃ r, r ∈ records ∧ ∃ kv, kv ∈ r ∧ kv.1 = c by
    rw [dfColumns, h []]
    simp
  intro acc
  induction records generalizing acc with
  | nil => simp
  | cons r rest ih =>
    simp only [List.foldl_cons]
    rw [ih, mem_addKeys]
    constructor
    · rintro ((hc | ⟨kv, hm, hk⟩) | ⟨r', hm', hex⟩)
      · exact Or.inl hc
      · exact Or.inr ⟨r, List.mem_cons_self r rest, kv, hm, hk⟩
      · exact Or.inr ⟨r', List.mem_cons_of_mem r hm', hex⟩
    · rintro (hc | ⟨r', hm', kv, hm, hk⟩)
      · exact Or.inl (Or.inl hc)
      · rcases List.mem_cons.mp hm' with h1 | h1
        · subst h1
          exact Or.inl (Or.inr ⟨kv, hm, hk⟩)
        · exact Or.inr ⟨r', h1, kv, hm, hk⟩

/-! ## Claim C2 -/

/-- C2 (counterexample): a line that parses as a JSON object with a
`payload` key but without `source_metadata.change_type` does NOT merely
fail for that line: the `KeyError` is not caught (only
`json.JSONDecodeError` is), so the whole file's transformation aborts and
the following well-formed line is never turned into a record. -/
theorem C2_counterexample :
    load_json_to_dataframe [lineNoCT, goodLine1] = .error (.keyError "change_type") := rfl

/-- C2 (amended): a decoded line carrying `payload` whose `source_metadata`
object lacks `change_type` raises a `KeyError` that is caught neither per
line nor per file by the transformer: transformation of the whole file
aborts (the remaining lines are not transformed), and the per-file handler
routes the file to `Error` and re-raises. -/
theorem C2_line_error_aborts_file (pre post : List Line)
    (fields sfields : List (String × JVal)) (ksm : String) (rs : List Record)
    (hpre : transformLines pre [] = .ok rs)
    (hpay : hasKey fields "payload" = true)
    (hsm : fields.find? (fun kv => kv.1 == "source_metadata") = some (ksm, .obj sfields))
    (hct : hasKey sfields "change_type" = false) :
    transformLines (pre ++ .parsed (.obj fields) :: post) []
      = .error (.keyError "change_type")
    ∧ ∀ (loadFails : String → Bool) (s : Storage) (b : Blob),
        b.content = pre ++ .parsed (.obj fields) :: post →
        process_blob_with_error_handling loadFails s b =
          (move_blob_to_folder s b "Error", some (.keyError "change_type")) := by
  have hnone : sfields.find? (fun kv => kv.1 == "change_type") = none := by
    rw [hasKey] at hct
    exact List.find?_eq_none.mpr (fun kv hm => by
      simpa using List.any_eq_false.mp hct kv hm)
  have hline : lineResult (.parsed (.obj fields)) = .error (.keyError "change_type") := by
    rw [hasKey] at hpay
    simp [lineResult, pyInStr, hpay, buildRecord, pyGetItem, hsm, hnone, bind, Except.bind]
  have htr : transformLines (pre ++ .parsed (.obj fields) :: post) []
      = .error (.keyError "change_type") := by
    rw [transformLines_append pre _ [] rs hpre]
    simp [transformLines, hline]
  refine ⟨htr, ?_⟩
  intro loadFails s b hc
  have hnb : (b.content.all (fun l => match l with | .blank => true | _ => false)) = false := by
    rw [hc, List.all_eq_false]
    exact ⟨.parsed (.obj fields), by simp, by simp⟩
  have hld : load_json_to_dataframe b.content = .error (.keyError "change_type") := by
    rw [hc]
    simp only [load_json_to_dataframe, htr]
  simp [process_blob_with_error_handling, process_blob, hnb, hld]

/-- C2 (witness): the amended theorem applied to a concrete file whose
middle line lacks `source_metadata.change_type`. -/
theorem C2_witness :
    transformLines ([goodLine1] ++ lineNoCT :: [goodLine1]) []
      = .error (.keyError "change_type")
    ∧ process_blob_with_error_handling (fun _ => false) [blobBad] blobBad =
        (move_blob_to_folder [blobBad] blobBad "Error", some (.keyError "change_type")) := by
  have h := C2_line_error_aborts_file [goodLine1] [goodLine1]
    [("source_metadata", .obj []), ("source_timestamp", .str "t0"),
     ("payload", .obj [("a", .num 1)])]
    [] "source_metadata" [recG] rfl rfl rfl rfl
  exact ⟨h.1, h.2 (fun _ => false) [blobBad] blobBad rfl⟩

/-! ## Claim C4 -/

/-- C4 (counterexample): one line that is a valid JSON object with a
`payload` key (so N = 1, M = 0) for which the transformer does not produce
a batch of 1 record: it raises an uncaught `KeyError`, because the line
lacks `source_metadata`. -/
theorem C4_counterexample :
    load_json_to_dataframe [lineNoSM] = .error (.keyError "source_metadata") := rfl

/-- C4 (amended): given a file each of whose lines is either skippable
(blank, undecodable, or a JSON object without `payload`) or a fully
well-formed record line (a JSON object with a `payload` object,
`source_metadata.change_type` and `source_timestamp`), the transformer
produces exactly one record per well-formed line, in source line order,
with no error; the skipped lines contribute no record. -/
theorem C4_partial_parse (content : List Line)
    (h : ∀ l, l ∈ content → skippable l = true ∨ wellFormed l = true) :
    transformLines content [] = .ok (content.filterMap recOf)
    ∧ (content.filterMap recOf).length = content.countP (fun l => wellFormed l) := by
  refine ⟨?_, filterMap_recOf_length content h⟩
  simpa using transformLines_clean content [] h

/-- C4 (witness): the amended theorem on a concrete file with two
well-formed lines interleaved with three skippable ones. -/
theorem C4_witness :
    transformLines [goodLine1, .blank, lineNoPayload, .malformed, goodLine1] []
      = .ok ([goodLine1, .blank, lineNoPayload, .malformed, goodLine1].filterMap recOf)
    ∧ ([goodLine1, .blank, lineNoPayload, .malformed, goodLine1].filterMap recOf).length
      = [goodLine1, .blank, lineNoPayload, .malformed, goodLine1].countP
          (fun l => wellFormed l) :=
  C4_partial_parse _ (by decide)

/-! ## Claim C5 -/

/-- C5: for a qualifying line with all fields present, the produced record
behaves as `change_type`/`source_timestamp` extracted from the line with
every payload pair merged in last: a payload key named `change_type` or
`source_timestamp` overrides the extracted value, every other key resolves
to its (last) payload binding. -/
theorem C5_payload_merge (fields sfields pfields : List (String × JVal))
    (ksm kct kts kpl : String) (ct ts : JVal) (r : Record)
    (hfsm : fields.find? (fun kv => kv.1 == "source_metadata") = some (ksm, .obj sfields))
    (hct : sfields.find? (fun kv => kv.1 == "change_type") = some (kct, ct))
    (hfts : fields.find? (fun kv => kv.1 == "source_timestamp") = some (kts, ts))
    (hfpl : fields.find? (fun kv => kv.1 == "payload") = some (kpl, .obj pfields))
    (hr : buildRecord (.obj fields) = .ok r) :
    lookupRec r "change_type" = some ((lastLookup pfields "change_type").getD ct)
    ∧ lookupRec r "source_timestamp" = some ((lastLookup pfields "source_timestamp").getD ts)
    ∧ ∀ k, ¬(k = "change_type") → ¬(k = "source_timestamp") →
        lookupRec r k = lastLookup pfields k := by
  have hb := buildRecord_eq fields sfields pfields ksm kct kts kpl ct ts hfsm hct hfts hfpl
  have hreq : r = pfields.foldl (fun d kv => dictInsert d kv.1 kv.2)
      (dictInsert (dictInsert [] "change_type" ct) "source_timestamp" ts) := by
    have := hr.symm.trans hb
    injection this
  have hbase_ct :
      lookupRec (dictInsert (dictInsert [] "change_type" ct) "source_timestamp" ts)
        "change_type" = some ct := by
    rw [lookupRec_dictInsert, if_neg (by decide), lookupRec_dictInsert, if_pos rfl]
  have hbase_ts :
      lookupRec (dictInsert (dictInsert [] "change_type" ct) "source_timestamp" ts)
        "source_timestamp" = some ts := by
    rw [lookupRec_dictInsert, if_pos rfl]
  refine ⟨?_, ?_, ?_⟩
  · rw [hreq, lookupRec_foldInsert]
    cases hll : lastLookup pfields "change_type" with
    | some v => rfl
    | none => exact hbase_ct
  · rw [hreq, lookupRec_foldInsert]
    cases hll : lastLookup pfields "source_timestamp" with
    | some v => rfl
    | none => exact hbase_ts
  · intro k h1 h2
    rw [hreq, lookupRec_foldInsert]
    cases hll : lastLookup pfields k with
    | some v => rfl
    | none =>
      rw [lookupRec_dictInsert, if_neg h2, lookupRec_dictInsert, if_neg h1]
      rfl

/-- C5 (witness): the merge theorem on a concrete line whose payload
overrides `change_type`. -/
theorem C5_witness :
    lookupRec recOvr "change_type" = some (.str "OVR")
    ∧ lookupRec recOvr "source_timestamp" = some (.str "t1")
    ∧ lookupRec recOvr "a" = some (.num 1) := by
  have h := C5_payload_merge fieldsOvr
    [("change_type", JVal.str "INSERT")]
    [("change_type", JVal.str "OVR"), ("a", JVal.num 1)]
    "source_metadata" "change_type" "source_timestamp" "payload"
    (JVal.str "INSERT") (JVal.str "t1") recOvr rfl rfl rfl rfl rfl
  exact ⟨h.1.trans rfl, h.2.1.trans rfl, (h.2.2 "a" (by decide) (by decide)).trans rfl⟩

/-! ## Claim C8 -/

/-- C8: for every batch the transformer produces, the load-job schema's
column set is exactly the union of the field names appearing across all
records of the batch, and every column is typed `STRING` (no numeric or
boolean inference). -/
theorem C8_schema_union (content : List Line) (df : DataFrame)
    (h : load_json_to_dataframe content = .ok df) :
    (∀ c : String, (c ∈ (loadJobSchema df).map Prod.fst ↔
        ∃ r, r ∈ df.rows ∧ ∃ kv, kv ∈ r ∧ kv.1 = c))
    ∧ ∀ p, p ∈ loadJobSchema df → p.2 = "STRING" := by
  simp only [load_json_to_dataframe] at h
  cases htr : transformLines content [] with
  | error e =>
    rw [htr] at h
    exact absurd h (by simp)
  | ok records =>
    rw [htr] at h
    injection h with h'
    subst h'
    constructor
    · intro c
      have hcols : ∀ cols : List String,
          ((cols.map (fun c => (c, "STRING"))).map Prod.fst) = cols := by
        intro cols
        induction cols with
        | nil => rfl
        | cons x xs ih => simp [ih]
      rw [show (loadJobSchema ⟨dfColumns records, records⟩).map Prod.fst
          = dfColumns records from hcols (dfColumns records)]
      exact mem_dfColumns records c
    · intro p hp
      simp only [loadJobSchema, List.mem_map] at hp
      obtain ⟨c, _, hc⟩ := hp
      rw [← hc]

/-- C8 (witness): the schema of the batch of `[goodLine1]` holds the
payload column `a`, and its entries are `STRING`-typed. -/
theorem C8_witness :
    ("a" ∈ (loadJobSchema dfG).map Prod.fst)
    ∧ (("a", "STRING") : String × String).2 = "STRING" := by
  have h := C8_schema_union [goodLine1] dfG rfl
  refine ⟨(h.1 "a").mpr ⟨recG, by simp [dfG], ("a", JVal.num 1), by simp [recG], rfl⟩,
    h.2 ("a", "STRING") (by simp [loadJobSchema, dfG])⟩

/-! ## Claim C3 -/

/-- C3: a file with (non-whitespace) content whose transformation yields
zero qualifying records — an empty DataFrame — completes the load step as
a successful no-op (the external load oracle does not raise) and is
relocated to `Archive`, not `Error`. -/
theorem C3_empty_batch_archives (loadFails : String → Bool) (s : Storage) (b : Blob)
    (hnb : (b.content.all (fun l => match l with | .blank => true | _ => false)) = false)
    (hz : load_json_to_dataframe b.content = .ok ⟨[], []⟩)
    (hld : loadFails b.name = false)
    (hex : blobExists s b.name = true) :
    process_blob_with_error_handling loadFails s b
      = (move_blob_to_folder s b "Archive", none) := by
  simp [process_blob_with_error_handling, process_blob, hnb, hz, hld, hex]

/-- C3 (witness): a blob whose single line is undecodable yields zero
records and is archived. -/
theorem C3_witness :
    process_blob_with_error_handling (fun _ => false) [blobEmptyRec] blobEmptyRec
      = (move_blob_to_folder [blobEmptyRec] blobEmptyRec "Archive", none) :=
  C3_empty_batch_archives (fun _ => false) [blobEmptyRec] blobEmptyRec rfl rfl rfl rfl

/-! ## Claim C9 -/

/-- C9: folder creation is idempotent: creating the zone markers again on a
store that already has them performs no write and changes nothing, and for
a store with distinct object names the result holds exactly one
`Archive/` marker and one `Error/` marker. -/
theorem C9_idempotent_folders (s : Storage) (hnd : (s.map Blob.name).Nodup) :
    create_folders (create_folders s).1 = ((create_folders s).1, [])
    ∧ ((create_folders s).1.map Blob.name).count "Archive/" = 1
    ∧ ((create_folders s).1.map Blob.name).count "Error/" = 1 := by
  have hmem : ∀ (st : Storage) (nm : String),
      st.any (fun b => b.name == nm) = true ↔ nm ∈ st.map Blob.name := by
    intro st nm
    simp [List.any_eq_true, List.mem_map, beq_iff_eq]
  by_cases hA : s.any (fun b => b.name == "Archive/") = true
  · by_cases hE : s.any (fun b => b.name == "Error/") = true
    · have h1 : create_folders s = (s, []) := by
        simp [create_folders, hA, hE]
      rw [h1]
      exact ⟨h1, List.count_eq_one_of_mem hnd ((hmem s "Archive/").mp hA),
        List.count_eq_one_of_mem hnd ((hmem s "Error/").mp hE)⟩
    · rw [Bool.not_eq_true] at hE
      have h1 : create_folders s = (s ++ [⟨"Error/", []⟩], ["Error/"]) := by
        simp [create_folders, hA, hE, uploadBlob]
      have hEnm : "Error/" ∉ s.map Blob.name := fun hm =>
        absurd ((hmem s "Error/").mpr hm) (by simp [hE])
      have hfst : (create_folders s).1 = s ++ [⟨"Error/", []⟩] := by rw [h1]
      rw [hfst]
      refine ⟨?_, ?_, ?_⟩
      · simp [create_folders, uploadBlob, List.any_append, hA]
      · rw [List.map_append, List.count_append,
          List.count_eq_one_of_mem hnd ((hmem s "Archive/").mp hA)]
        decide
      · rw [List.map_append, List.count_append, List.count_eq_zero.mpr hEnm]
        decide
  · rw [Bool.not_eq_true] at hA
    have hAnm : "Archive/" ∉ s.map Blob.name := fun hm =>
      absurd ((hmem s "Archive/").mpr hm) (by simp [hA])
    by_cases hE : s.any (fun b => b.name == "Error/") = true
    · have hE1 : (s ++ [(⟨"Archive/", []⟩ : Blob)]).any (fun b => b.name == "Error/")
          = true := by
        simp [List.any_append, hE]
      have h1 : create_folders s = (s ++ [⟨"Archive/", []⟩], ["Archive/"]) := by
        simp [create_folders, hA, uploadBlob, hE1]
      have hfst : (create_folders s).1 = s ++ [⟨"Archive/", []⟩] := by rw [h1]
      rw [hfst]
      refine ⟨?_, ?_, ?_⟩
      · simp [create_folders, uploadBlob, List.any_append, hE]
      · rw [List.map_append, List.count_append, List.count_eq_zero.mpr hAnm]
        decide
      · rw [List.map_append, List.count_append,
          List.count_eq_one_of_mem hnd ((hmem s "Error/").mp hE)]
        decide
    · rw [Bool.not_eq_true] at hE
      have hEnm : "Error/" ∉ s.map Blob.name := fun hm =>
        absurd ((hmem s "Error/").mpr hm) (by simp [hE])
      have hE1 : (s ++ [(⟨"Archive/", []⟩ : Blob)]).any (fun b => b.name == "Error/")
          = false := by
        simp [List.any_append, hE]
      have h1 : create_folders s
          = (s ++ [⟨"Archive/", []⟩] ++ [⟨"Error/", []⟩], ["Archive/", "Error/"]) := by
        simp [create_folders, hA, uploadBlob, hE1]
      have hfst : (create_folders s).1 = s ++ [⟨"Archive/", []⟩] ++ [⟨"Error/", []⟩] := by
        rw [h1]
      rw [hfst]
      refine ⟨?_, ?_, ?_⟩
      · simp [create_folders, uploadBlob, List.any_append]
      · rw [List.map_append, List.map_append, List.count_append, List.count_append,
          List.count_eq_zero.mpr hAnm]
        decide
      · rw [List.map_append, List.map_append, List.count_append, List.count_append,
          List.count_eq_zero.mpr hEnm]
        decide

/-- C9 (witness): two invocations on an empty store. -/
theorem C9_witness :
    create_folders (create_folders []).1 = ((create_folders []).1, [])
    ∧ ((create_folders []).1.map Blob.name).count "Archive/" = 1
    ∧ ((create_folders []).1.map Blob.name).count "Error/" = 1 :=
  C9_idempotent_folders [] (by simp)

/-! ## Claim C6 -/

/-- C6: for every candidate filename of the form
`<anything>_<table_name>[_<anything>].jsonl` (the leading segment holding
no underscore, so that the table name is the second underscore-delimited
segment), the derived destination table name is that second segment of the
extension-free base name. -/
theorem C6_table_name (p t r : List Char)
    (hp1 : '_' ∉ p) (hp2 : '/' ∉ p) (ht : '/' ∉ t) (hrt : '_' ∉ t) (hr : '/' ∉ r) :
    tableNameOf (String.mk (p ++ '_' :: t ++ ".jsonl".toList)) = some (String.mk t)
    ∧ tableNameOf (String.mk (p ++ '_' :: (t ++ '_' :: r) ++ ".jsonl".toList))
      = some (String.mk t) := by
  constructor
  · have hroot : (p ++ '_' :: t).any (fun c => !(c == '.')) = true :=
      List.any_eq_true.mpr
        ⟨'_', List.mem_append.mpr (Or.inr (List.mem_cons_self _ _)), by decide⟩
    have hsl : ('/' : Char) ∉ p ++ '_' :: t ++ ".jsonl".toList := by
      intro hm
      rcases List.mem_append.mp hm with h | h
      · rcases List.mem_append.mp h with h | h
        · exact hp2 h
        · rcases List.mem_cons.mp h with h | h
          · exact absurd h (by decide)
          · exact ht h
      · exact absurd h (by decide)
    have hbn : pyBasename (String.mk (p ++ '_' :: t ++ ".jsonl".toList)).toList
        = p ++ '_' :: t ++ ".jsonl".toList := by
      rw [show (String.mk (p ++ '_' :: t ++ ".jsonl".toList)).toList
          = p ++ '_' :: t ++ ".jsonl".toList from rfl]
      rw [pyBasename_of_no_slash _ hsl]
    rw [tableNameOf, tableParts, hbn, splitextRoot_jsonl _ hroot,
      pySplitChar_append _ _ _ hp1, pySplitChar_of_no_sep _ _ hrt]
    rfl
  · have hroot : (p ++ '_' :: (t ++ '_' :: r)).any (fun c => !(c == '.')) = true :=
      List.any_eq_true.mpr
        ⟨'_', List.mem_append.mpr (Or.inr (List.mem_cons_self _ _)), by decide⟩
    have hsl : ('/' : Char) ∉ p ++ '_' :: (t ++ '_' :: r) ++ ".jsonl".toList := by
      intro hm
      rcases List.mem_append.mp hm with h | h
      · rcases List.mem_append.mp h with h | h
        · exact hp2 h
        · rcases List.mem_cons.mp h with h | h
          · exact absurd h (by decide)
          · rcases List.mem_append.mp h with h | h
            · exact ht h
            · rcases List.mem_cons.mp h with h | h
              · exact absurd h (by decide)
              · exact hr h
      · exact absurd h (by decide)
    have hbn : pyBasename (String.mk (p ++ '_' :: (t ++ '_' :: r) ++ ".jsonl".toList)).toList
        = p ++ '_' :: (t ++ '_' :: r) ++ ".jsonl".toList := by
      rw [show (String.mk (p ++ '_' :: (t ++ '_' :: r) ++ ".jsonl".toList)).toList
          = p ++ '_' :: (t ++ '_' :: r) ++ ".jsonl".toList from rfl]
      rw [pyBasename_of_no_slash _ hsl]
    rw [tableNameOf, tableParts, hbn, splitextRoot_jsonl _ hroot,
      pySplitChar_append _ _ _ hp1, pySplitChar_append _ _ _ hrt]
    rfl

/-- C6 (witness): `evt_orders.jsonl` and `evt_orders_20.jsonl` both yield
table `orders`. -/
theorem C6_witness :
    tableNameOf "evt_orders.jsonl" = some "orders"
    ∧ tableNameOf "evt_orders_20.jsonl" = some "orders" := by
  have h := C6_table_name "evt".toList "orders".toList "20".toList
    (by decide) (by decide) (by decide) (by decide) (by decide)
  exact ⟨h.1, h.2⟩

/-! ## Claim C7 -/

/-- C7: a listed blob whose path starts with `Error/` or `Archive/` is
skipped entirely (no parse, no load, no move — storage unchanged — and the
loop continues), and a blob whose name does not end in `.jsonl` is moved
to `Error` without any parse or load attempt, the loop continuing with the
remaining blobs. -/
theorem C7_filter_routing (loadFails : String → Bool) (s : Storage) (b : Blob)
    (rest : List Blob) :
    ((pyStarts b.name "Error/" = true ∨ pyStarts b.name "Archive/" = true) →
      ingestLoop loadFails s (b :: rest) = ingestLoop loadFails s rest)
    ∧ (pyStarts b.name "Error/" = false → pyStarts b.name "Archive/" = false →
        pyEnds b.name ".jsonl" = false →
        ingestLoop loadFails s (b :: rest)
          = ingestLoop loadFails (move_blob_to_folder s b "Error") rest) := by
  constructor
  · rintro (h | h) <;> simp [ingestLoop, h]
  · intro h1 h2 h3
    simp [ingestLoop, h1, h2, h3]

/-- C7 (witness): the filter theorem at a zoned blob and at a `.txt`
blob. -/
theorem C7_witness :
    ingestLoop (fun _ => false) [zoneBlob] [zoneBlob]
      = ingestLoop (fun _ => false) [zoneBlob] []
    ∧ ingestLoop (fun _ => false) [txtBlob] [txtBlob]
      = ingestLoop (fun _ => false) (move_blob_to_folder [txtBlob] txtBlob "Error") [] :=
  ⟨(C7_filter_routing (fun _ => false) [zoneBlob] zoneBlob []).1 (Or.inr rfl),
    (C7_filter_routing (fun _ => false) [txtBlob] txtBlob []).2 rfl rfl rfl⟩

/-! ## Claim C10 -/

/-- C10: a working-zone `.jsonl` blob whose extension-free base name holds
no underscore makes `parts[1]` raise `IndexError` outside the per-file
isolation boundary: the blob is not moved to any zone, no subsequent blob
of the listing is processed, and the endpoint answers the error response
for the whole run. -/
theorem C10_no_underscore_aborts_run (loadFails : String → Bool) (s : Storage)
    (b : Blob) (rest : List Blob)
    (h1 : pyStarts b.name "Error/" = false) (h2 : pyStarts b.name "Archive/" = false)
    (h3 : pyEnds b.name ".jsonl" = true)
    (h4 : '_' ∉ splitextRoot (pyBasename b.name.toList)) :
    ingestLoop loadFails s (b :: rest) = (s, some .indexError)
    ∧ ∀ (bucket st : Storage) (e : PyErr),
        ingestLoop loadFails (create_folders bucket).1 (create_folders bucket).1
          = (st, some e) →
        ingest_json_to_bigquery loadFails bucket = (st, .failure e) := by
  constructor
  · simp [ingestLoop, h1, h2, h3, tableNameOf_eq_none b.name h4]
  · intro bucket st e h
    simp [ingest_json_to_bigquery, h]

/-- C10 (witness): `orders.jsonl` aborts the loop with storage unchanged,
and the endpoint answers the `IndexError` error response. -/
theorem C10_witness :
    ingestLoop (fun _ => false) [blobNoUnderscore, blobC] [blobNoUnderscore, blobC]
      = ([blobNoUnderscore, blobC], some .indexError)
    ∧ ingest_json_to_bigquery (fun _ => false) [blobNoUnderscore]
      = ((create_folders [blobNoUnderscore]).1, .failure .indexError) := by
  have h := C10_no_underscore_aborts_run (fun _ => false) [blobNoUnderscore, blobC]
    blobNoUnderscore [blobC] rfl rfl rfl (by decide)
  exact ⟨h.1, h.2 [blobNoUnderscore] (create_folders [blobNoUnderscore]).1 .indexError rfl⟩

/-! ## Claim C1 -/

/-- C1 (counterexample): three candidate files where file B's load raises:
the file listed after B (`evt_users.jsonl`) is never processed and remains
in the working zone, and the run's response is the error response, not the
success message — contradicting the claim that subsequent files are still
processed and the response is still success. -/
theorem C1_counterexample :
    (ingest_json_to_bigquery failB [blobA, blobB, blobC]).2 = .failure .loadError
    ∧ ((ingest_json_to_bigquery failB [blobA, blobB, blobC]).1.map Blob.name)
      = ["evt_users.jsonl", "Archive/", "Error/", "Archive/evt_orders.jsonl",
         "Error/evt_items.jsonl"] :=
  ⟨rfl, rfl⟩

/-- C1 (amended): when the processing chain of a candidate blob raises, the
blob is moved to `Error`, but the handler's bare `raise` re-raises the
exception, so no subsequent listed blob is processed and the endpoint
answers the error response instead of the success message. -/
theorem C1_failure_not_isolated (loadFails : String → Bool) (s : Storage) (b : Blob)
    (rest : List Blob) (tn : String) (e : PyErr)
    (h1 : pyStarts b.name "Error/" = false) (h2 : pyStarts b.name "Archive/" = false)
    (h3 : pyEnds b.name ".jsonl" = true)
    (h4 : tableNameOf b.name = some tn)
    (h5 : process_blob loadFails s b = (s, some e)) :
    ingestLoop loadFails s (b :: rest) = (move_blob_to_folder s b "Error", some e)
    ∧ ∀ (bucket st : Storage) (e' : PyErr),
        ingestLoop loadFails (create_folders bucket).1 (create_folders bucket).1
          = (st, some e') →
        ingest_json_to_bigquery loadFails bucket = (st, .failure e') := by
  constructor
  · simp [ingestLoop, h1, h2, h3, h4, process_blob_with_error_handling, h5]
  · intro bucket st e' h
    simp [ingest_json_to_bigquery, h]

/-- C1 (witness): the amended theorem at the injected load failure on blob
`B`, followed through to the endpoint's error response. -/
theorem C1_witness :
    ingestLoop failB [blobB, blobC] [blobB, blobC]
      = (move_blob_to_folder [blobB, blobC] blobB "Error", some .loadError)
    ∧ ingest_json_to_bigquery failB [blobA, blobB, blobC]
      = ((ingest_json_to_bigquery failB [blobA, blobB, blobC]).1, .failure .loadError) := by
  have h := C1_failure_not_isolated failB [blobB, blobC] blobB [blobC] "items"
    .loadError rfl rfl rfl rfl rfl
  exact ⟨h.1, h.2 [blobA, blobB, blobC]
    (ingest_json_to_bigquery failB [blobA, blobB, blobC]).1 .loadError rfl⟩

end Ingest
